import Mathlib

/-!
# A shallow embedding of the synapse Resource Cache & Subscription Manager

The `Manager` class of the source keeps three JS `Map`s — `cache`,
`dependents` and `subscriptions` — and exposes `subscribe`, `unsubscribe`,
`update`, `get`, `post`, `put`, `patch` and `delete`.  JS `Map`s and `Set`s
are modelled as insertion-ordered association lists / duplicate-free lists;
clients (callback functions in the source) are opaque numeric handles whose
invocations are recorded in a notification log; the bound `this.generator`
closure is passed explicitly to the operations that call it.  A JS
`TypeError` thrown by a method is modelled as an `Except.error` carrying the
state at the moment of the throw.
-/

namespace Synapse

/-- Resource paths are opaque strings. -/
abbrev Path := String

/-- A client is an opaque comparable handle.  The source uses the identity of
the callback function itself; the callback body is not part of the manager, so
a numeric id suffices and invocations are recorded in a log. -/
abbrev ClientId := Nat

/-- The verbs of the resolver interface. -/
inductive Verb
  | get
  | post
  | put
  | patch
  | delete
deriving DecidableEq, Repr

/-- Lookup in an association-list model of a JS `Map` (first matching key;
`none` is JS `undefined`). -/
def mapGet {K A : Type} [DecidableEq K] : List (K × A) → K → Option A
  | [], _ => none
  | (k, v) :: rest, q => if k = q then some v else mapGet rest q

/-- JS `Map.prototype.has`. -/
def mapHas {K A : Type} [DecidableEq K] (m : List (K × A)) (k : K) : Bool :=
  (mapGet m k).isSome

/-- JS `Map.prototype.set`: update in place if the key is present, else
append (insertion order preserved). -/
def mapSet {K A : Type} [DecidableEq K] : List (K × A) → K → A → List (K × A)
  | [], k, v => [(k, v)]
  | (k', v') :: rest, k, v =>
    if k' = k then (k, v) :: rest else (k', v') :: mapSet rest k v

/-- JS `Set.prototype.add`: append if absent (insertion order preserved). -/
def setAdd {A : Type} [DecidableEq A] (s : List A) (a : A) : List A :=
  if a ∈ s then s else s ++ [a]

/-- JS `Set.prototype.delete`. -/
def setDelete {A : Type} [DecidableEq A] (s : List A) (a : A) : List A :=
  s.filter (fun b => b ≠ a)

/-- JS `Map.prototype.delete`. -/
def mapDelete {K A : Type} [DecidableEq K] (m : List (K × A)) (k : K) : List (K × A) :=
  m.filter (fun kv => kv.1 ≠ k)

/-- Modelled from the spec: the `Reply` class (the source under scrutiny only
consumes it via `require("./Reply")`); the spec gives
`Result = {status: integer, payload: value|nil, isError(): bool}`.
We record the three observable components; `isError` is the value the
`isError()` method returns. -/
structure Reply (V : Type) where
  status : Nat
  payload : Option V
  isError : Bool
deriving DecidableEq, Repr

/-- Modelled from the spec: `Reply.OK(payload)` builds a success Result —
`isError()` is false exactly for statuses in the success range, of which 200
is the canonical one — wrapping `payload`. -/
def Reply.OK {V : Type} (v : Option V) : Reply V :=
  { status := 200, payload := v, isError := false }

/-- The state of a `Manager`: `cache` maps paths to their last known values
(the stored value is itself an `Option`, since a reply payload may be nil),
`dependents` maps paths to the set of subscribed clients, and `subscriptions`
maps clients to the set of paths they are subscribed to. -/
structure Manager (V : Type) where
  cache : List (Path × Option V)
  dependents : List (Path × List ClientId)
  subscriptions : List (ClientId × List Path)
deriving DecidableEq, Repr

/-- The state built by the constructor: three empty maps. -/
def Manager.initial (V : Type) : Manager V :=
  { cache := [], dependents := [], subscriptions := [] }

/-- The set of clients subscribed to `p` (empty when the map has no entry). -/
def Manager.dependentsOf {V : Type} (M : Manager V) (p : Path) : List ClientId :=
  (mapGet M.dependents p).getD []

/-- The set of paths client `c` is subscribed to (empty when the map has no
entry). -/
def Manager.subscriptionsOf {V : Type} (M : Manager V) (c : ClientId) : List Path :=
  (mapGet M.subscriptions c).getD []

/-- `Manager.prototype.subscribe(client, path)`: ensure both map entries
exist, then add `client` to `dependents.get(path)` and `path` to
`subscriptions.get(client)`. -/
def Manager.subscribe {V : Type} (M : Manager V) (client : ClientId) (path : Path) :
    Manager V :=
  let subs0 := if mapHas M.subscriptions client then M.subscriptions
               else mapSet M.subscriptions client []
  let deps0 := if mapHas M.dependents path then M.dependents
               else mapSet M.dependents path []
  let deps1 := mapSet deps0 path (setAdd ((mapGet deps0 path).getD []) client)
  let subs1 := mapSet subs0 client (setAdd ((mapGet subs0 client).getD []) path)
  { M with dependents := deps1, subscriptions := subs1 }

/-- One iteration of the `remove.forEach` body in
`Manager.prototype.unsubscribe`: `subscriptions.delete(target)` followed by
`this.dependents.get(target).delete(client)`.  When `dependents` has no entry
for `target`, `.delete` is called on `undefined`: the thrown `TypeError` is
modelled as `.error` carrying the state at the throw (the `subscriptions`
side has already been mutated). -/
def Manager.unsubStep {V : Type} (client : ClientId) (M : Manager V) (target : Path) :
    Except (Manager V) (Manager V) :=
  let subs1 := mapSet M.subscriptions client
    (setDelete ((mapGet M.subscriptions client).getD []) target)
  match mapGet M.dependents target with
  | none => .error { M with subscriptions := subs1 }
  | some ds =>
    let deps1 := mapSet M.dependents target (setDelete ds client)
    .ok { M with subscriptions := subs1, dependents := deps1 }

/-- The `remove.forEach(...)` loop of `unsubscribe`.  JS `Set.forEach`
deletes only the element currently visited, so iterating the captured list as
a snapshot is equivalent to iterating the live set. -/
def Manager.unsubLoop {V : Type} (client : ClientId) :
    Manager V → List Path → Except (Manager V) (Manager V)
  | M, [] => .ok M
  | M, t :: rest =>
    match Manager.unsubStep client M t with
    | .error st => .error st
    | .ok st => Manager.unsubLoop client st rest

/-- `Manager.prototype.unsubscribe(client, path = null)`.  `remove` is
`[path]` when `path` is truthy and the whole subscription set otherwise; the
empty string is falsy in JS, so `path = ""` behaves like the no-path form.
When the client has no `subscriptions` entry, `this.subscriptions.get(client)`
is `undefined` and both branches throw a `TypeError` (`.delete` of
`undefined` resp. `.forEach` of `undefined`) before mutating anything. -/
def Manager.unsubscribe {V : Type} (M : Manager V) (client : ClientId)
    (path : Option Path) : Except (Manager V) (Manager V) :=
  match mapGet M.subscriptions client with
  | none => .error M
  | some subs =>
    let remove := match path with
      | some p => if p = "" then subs else [p]
      | none => subs
    Manager.unsubLoop client M remove

/-- A recorded client invocation `client(path, value)`; the value is `none`
when the source passes `undefined`. -/
abbrev Notif (V : Type) := ClientId × Path × Option V

/-- The observable effects of one public operation: the resolver invocations
`this.generator(verb, path, data)` in order, and the client invocations in
order. -/
structure Effects (V : Type) where
  calls : List (Verb × Path × Option V)
  notes : List (Notif V)
deriving DecidableEq, Repr

/-- The 404 fan-out body of `update`: for each dependent of `path` (the live
set, of which only the visited element is ever deleted, hence snapshot
order),
`this.unsubscribe(client, path)` followed by `client(path, undefined)`.  An
exception raised inside `unsubscribe` aborts the loop with the notifications
emitted so far. -/
def Manager.cascade {V : Type} (p : Path) :
    Manager V → List (Notif V) → List ClientId →
    Except (Manager V × List (Notif V)) (Manager V × List (Notif V))
  | M, ns, [] => .ok (M, ns)
  | M, ns, c :: rest =>
    match Manager.unsubscribe M c (some p) with
    | .error st => .error (st, ns)
    | .ok st => Manager.cascade p st (ns ++ [(c, p, none)]) rest

/-- `Manager.prototype.update(path)`: call `this.generator("get", path)`
(no data argument, hence `none`); on a non-error reply write the payload to
the cache and invoke every dependent with `(path, this.cache.get(path))`; on
a 404 error delete the cache entry and run the eviction cascade; on any other
error do nothing.  Returns the reply together with the state and effects. -/
def Manager.update {V : Type} (gen : Verb → Path → Option V → Reply V)
    (M : Manager V) (path : Path) :
    Except (Manager V × Effects V) (Manager V × Effects V × Reply V) :=
  let result := gen Verb.get path none
  let call : List (Verb × Path × Option V) := [(Verb.get, path, none)]
  if result.isError = false then
    let M1 : Manager V := { M with cache := mapSet M.cache path result.payload }
    let notes : List (Notif V) :=
      match mapGet M1.dependents path with
      | none => []
      | some ds => ds.map (fun c => (c, path, (mapGet M1.cache path).getD none))
    .ok (M1, ⟨call, notes⟩, result)
  else if result.status = 404 then
    let M1 : Manager V := { M with cache := mapDelete M.cache path }
    let start : List ClientId :=
      match mapGet M1.dependents path with
      | none => []
      | some ds => ds
    match Manager.cascade path M1 [] start with
    | .error (st, ns) => .error (st, ⟨call, ns⟩)
    | .ok (st, ns) => .ok (st, ⟨call, ns⟩, result)
  else
    .ok (M, ⟨call, []⟩, result)

/-- `Manager.prototype.get(path, data)` (`data` is unused by the source):
serve `Reply.OK(this.cache.get(path))` when the cache has an entry, else
delegate to `update`. -/
def Manager.get {V : Type} (gen : Verb → Path → Option V → Reply V)
    (M : Manager V) (path : Path) :
    Except (Manager V × Effects V) (Manager V × Effects V × Reply V) :=
  if mapHas M.cache path then
    .ok (M, ⟨[], []⟩, Reply.OK ((mapGet M.cache path).getD none))
  else
    Manager.update gen M path

/-- The manager state after `update` (on a throw, the state at the throw). -/
def Manager.updState {V : Type} (gen : Verb → Path → Option V → Reply V)
    (M : Manager V) (path : Path) : Manager V :=
  match Manager.update gen M path with
  | .ok (st, _, _) => st
  | .error (st, _) => st

/-- The effects of `update` (on a throw, the effects up to the throw). -/
def Manager.updEff {V : Type} (gen : Verb → Path → Option V → Reply V)
    (M : Manager V) (path : Path) : Effects V :=
  match Manager.update gen M path with
  | .ok (_, e, _) => e
  | .error (_, e) => e

/-- The manager state after `get`. -/
def Manager.getState {V : Type} (gen : Verb → Path → Option V → Reply V)
    (M : Manager V) (path : Path) : Manager V :=
  match Manager.get gen M path with
  | .ok (st, _, _) => st
  | .error (st, _) => st

/-- The manager state after `unsubscribe` (on a throw, the state at the
throw; the caller may catch the `TypeError` and continue). -/
def Manager.unsubState {V : Type} (M : Manager V) (client : ClientId)
    (path : Option Path) : Manager V :=
  match Manager.unsubscribe M client path with
  | .ok st => st
  | .error st => st

/-- `Manager.prototype.post(path, data)`: call the generator with the verb,
and on a non-error reply fire `this.update(path)` without awaiting it — the
refresh runs, but its reply (and any rejection it produces) never reaches the
caller, who always receives the original mutation reply. -/
def Manager.post {V : Type} (gen : Verb → Path → Option V → Reply V)
    (M : Manager V) (path : Path) (data : Option V) :
    Manager V × Effects V × Reply V :=
  let result := gen Verb.post path data
  if result.isError = false then
    let eff := Manager.updEff gen M path
    (Manager.updState gen M path,
      ⟨(Verb.post, path, data) :: eff.calls, eff.notes⟩, result)
  else
    (M, ⟨[(Verb.post, path, data)], []⟩, result)

/-- `Manager.prototype.put(path, data)`: as `post` with verb `put`. -/
def Manager.put {V : Type} (gen : Verb → Path → Option V → Reply V)
    (M : Manager V) (path : Path) (data : Option V) :
    Manager V × Effects V × Reply V :=
  let result := gen Verb.put path data
  if result.isError = false then
    let eff := Manager.updEff gen M path
    (Manager.updState gen M path,
      ⟨(Verb.put, path, data) :: eff.calls, eff.notes⟩, result)
  else
    (M, ⟨[(Verb.put, path, data)], []⟩, result)

/-- `Manager.prototype.patch(path, data)`: as `post` with verb `patch`. -/
def Manager.patch {V : Type} (gen : Verb → Path → Option V → Reply V)
    (M : Manager V) (path : Path) (data : Option V) :
    Manager V × Effects V × Reply V :=
  let result := gen Verb.patch path data
  if result.isError = false then
    let eff := Manager.updEff gen M path
    (Manager.updState gen M path,
      ⟨(Verb.patch, path, data) :: eff.calls, eff.notes⟩, result)
  else
    (M, ⟨[(Verb.patch, path, data)], []⟩, result)

/-- `Manager.prototype.delete(path)`: the generator is called with explicit
`null` data. -/
def Manager.delete {V : Type} (gen : Verb → Path → Option V → Reply V)
    (M : Manager V) (path : Path) :
    Manager V × Effects V × Reply V :=
  let result := gen Verb.delete path none
  if result.isError = false then
    let eff := Manager.updEff gen M path
    (Manager.updState gen M path,
      ⟨(Verb.delete, path, none) :: eff.calls, eff.notes⟩, result)
  else
    (M, ⟨[(Verb.delete, path, none)], []⟩, result)

/-- One public operation of the manager, as a step relation on states.  The
resolver behaviour `gen` is arbitrary at each step.  Exception outcomes
(a thrown `TypeError`) leave the state at the throw; the caller may catch and
continue, so both outcomes are steps. -/
inductive Step {V : Type} : Manager V → Manager V → Prop
  | sub (M : Manager V) (c : ClientId) (p : Path) :
      Step M (M.subscribe c p)
  | unsub (M : Manager V) (c : ClientId) (p : Option Path) :
      Step M (M.unsubState c p)
  | upd (gen : Verb → Path → Option V → Reply V) (M : Manager V) (p : Path) :
      Step M (Manager.updState gen M p)
  | getOp (gen : Verb → Path → Option V → Reply V) (M : Manager V) (p : Path) :
      Step M (Manager.getState gen M p)
  | postOp (gen : Verb → Path → Option V → Reply V) (M : Manager V) (p : Path)
      (d : Option V) : Step M (Manager.post gen M p d).1
  | putOp (gen : Verb → Path → Option V → Reply V) (M : Manager V) (p : Path)
      (d : Option V) : Step M (Manager.put gen M p d).1
  | patchOp (gen : Verb → Path → Option V → Reply V) (M : Manager V) (p : Path)
      (d : Option V) : Step M (Manager.patch gen M p d).1
  | deleteOp (gen : Verb → Path → Option V → Reply V) (M : Manager V) (p : Path) :
      Step M (Manager.delete gen M p).1

/-- Reachability by any sequence of public operations. -/
def Reachable {V : Type} (M M' : Manager V) : Prop :=
  Relation.ReflTransGen Step M M'

/-- The symmetry invariant of the subscription graph. -/
def Sym {V : Type} (M : Manager V) : Prop :=
  ∀ (c : ClientId) (p : Path), c ∈ M.dependentsOf p ↔ p ∈ M.subscriptionsOf c

/-- Every dependent set and every subscription set is duplicate-free (JS
`Set`s cannot hold duplicates). -/
def NodupSets {V : Type} (M : Manager V) : Prop :=
  (∀ p : Path, (M.dependentsOf p).Nodup) ∧ (∀ c : ClientId, (M.subscriptionsOf c).Nodup)

/-- Well-formedness of a manager state: graph symmetry plus duplicate-free
sets. -/
def WF {V : Type} (M : Manager V) : Prop :=
  Sym M ∧ NodupSets M

/-! ## Lemmas about the `Map` and `Set` models -/

theorem mapGet_mapSet_self {K A : Type} [DecidableEq K] (m : List (K × A)) (k : K) (v : A) :
    mapGet (mapSet m k v) k = some v := by
  induction m with
  | nil => simp [mapSet, mapGet]
  | cons kv rest ih =>
    obtain ⟨k', v'⟩ := kv
    by_cases h : k' = k <;> simp [mapSet, mapGet, h, ih]

theorem mapGet_mapSet_ne {K A : Type} [DecidableEq K] (m : List (K × A)) {k q : K} (v : A)
    (h : k ≠ q) : mapGet (mapSet m k v) q = mapGet m q := by
  induction m with
  | nil => simp [mapSet, mapGet, h]
  | cons kv rest ih =>
    obtain ⟨k', v'⟩ := kv
    by_cases hk : k' = k
    · subst hk
      simp [mapSet, mapGet, h]
    · simp only [mapSet, if_neg hk, mapGet]
      by_cases hq : k' = q <;> simp [hq, ih]

theorem mapSet_mapGet_self {K A : Type} [DecidableEq K] {m : List (K × A)} {k : K} {v : A}
    (h : mapGet m k = some v) : mapSet m k v = m := by
  induction m with
  | nil => simp [mapGet] at h
  | cons kv rest ih =>
    obtain ⟨k', v'⟩ := kv
    by_cases hk : k' = k
    · subst hk
      have hv : v' = v := by simpa [mapGet] using h
      subst hv
      simp [mapSet]
    · simp only [mapGet, if_neg hk] at h
      simp [mapSet, hk, ih h]

theorem isSome_mapGet_mapSet {K A : Type} [DecidableEq K] (m : List (K × A)) (k q : K) (v : A)
    (h : (mapGet m q).isSome) : (mapGet (mapSet m k v) q).isSome := by
  by_cases hk : k = q
  · subst hk
    simp [mapGet_mapSet_self]
  · rwa [mapGet_mapSet_ne m v hk]

theorem mapGet_mapDelete {K A : Type} [DecidableEq K] (m : List (K × A)) (k q : K) :
    mapGet (mapDelete m k) q = if k = q then none else mapGet m q := by
  induction m with
  | nil => simp [mapDelete, mapGet]
  | cons kv rest ih =>
    obtain ⟨k', v'⟩ := kv
    by_cases hk : k' = k
    · subst hk
      by_cases hq : k' = q
      · subst hq
        simpa [mapDelete, mapGet] using ih
      · simpa [mapDelete, mapGet, hq] using ih
    · by_cases hq : k' = q
      · subst hq
        have hkq : ¬ k = k' := fun h => hk h.symm
        simp [mapDelete, mapGet, hk, hkq]
      · simpa [mapDelete, mapGet, hk, hq] using ih

theorem mem_setAdd {A : Type} [DecidableEq A] {s : List A} {a b : A} :
    b ∈ setAdd s a ↔ b ∈ s ∨ b = a := by
  unfold setAdd
  by_cases h : a ∈ s
  · simp only [if_pos h]
    constructor
    · exact Or.inl
    · rintro (hb | rfl) <;> [exact hb; exact h]
  · simp [if_neg h]

theorem setAdd_of_mem {A : Type} [DecidableEq A] {s : List A} {a : A} (h : a ∈ s) :
    setAdd s a = s := by
  simp [setAdd, h]

theorem nodup_setAdd {A : Type} [DecidableEq A] {s : List A} (a : A) (h : s.Nodup) :
    (setAdd s a).Nodup := by
  unfold setAdd
  by_cases ha : a ∈ s
  · simpa [ha]
  · rw [if_neg ha]
    simp [List.nodup_append, h, ha]

theorem mem_setDelete {A : Type} [DecidableEq A] {s : List A} {a b : A} :
    b ∈ setDelete s a ↔ b ∈ s ∧ b ≠ a := by
  simp [setDelete, List.mem_filter]

theorem nodup_setDelete {A : Type} [DecidableEq A] {s : List A} (a : A) (h : s.Nodup) :
    (setDelete s a).Nodup :=
  List.Nodup.filter _ h

theorem setDelete_of_not_mem {A : Type} [DecidableEq A] {s : List A} {a : A} (h : a ∉ s) :
    setDelete s a = s := by
  unfold setDelete
  apply List.filter_eq_self.2
  intro b hb
  simp only [ne_eq, decide_eq_true_eq]
  rintro rfl
  exact h hb

/-- Lookup after the `if (!m.has(k)) m.set(k, d)` idiom of `subscribe`. -/
theorem mapGet_ensure {K A : Type} [DecidableEq K] (m : List (K × A)) (k q : K) (d : A) :
    mapGet (if mapHas m k then m else mapSet m k d) q =
      if k = q then some ((mapGet m k).getD d) else mapGet m q := by
  by_cases h : mapHas m k = true
  · rw [if_pos h]
    unfold mapHas at h
    obtain ⟨v, hv⟩ := Option.isSome_iff_exists.1 h
    by_cases hq : k = q
    · subst hq
      simp [hv]
    · simp [hq]
  · rw [if_neg h]
    unfold mapHas at h
    have h0 : mapGet m k = none := by
      cases hmk : mapGet m k
      · rfl
      · rw [hmk] at h
        simp at h
    by_cases hq : k = q
    · subst hq
      simp [mapGet_mapSet_self, h0]
    · simp [mapGet_mapSet_ne m d hq, hq]

/-! ## Lemmas about `subscribe` -/

theorem Manager.ext' {V : Type} {M N : Manager V} (h1 : M.cache = N.cache)
    (h2 : M.dependents = N.dependents) (h3 : M.subscriptions = N.subscriptions) : M = N := by
  cases M
  cases N
  cases h1
  cases h2
  cases h3
  rfl

theorem subscribe_cache {V : Type} (M : Manager V) (c : ClientId) (p : Path) :
    (M.subscribe c p).cache = M.cache := rfl

theorem dependents_subscribe {V : Type} (M : Manager V) (c : ClientId) (p : Path) :
    (M.subscribe c p).dependents =
      mapSet (if mapHas M.dependents p then M.dependents else mapSet M.dependents p []) p
        (setAdd (M.dependentsOf p) c) := by
  show mapSet _ p (setAdd ((mapGet (if mapHas M.dependents p then M.dependents
    else mapSet M.dependents p []) p).getD []) c) = _
  rw [mapGet_ensure]
  simp [Manager.dependentsOf]

theorem subscriptions_subscribe {V : Type} (M : Manager V) (c : ClientId) (p : Path) :
    (M.subscribe c p).subscriptions =
      mapSet (if mapHas M.subscriptions c then M.subscriptions else mapSet M.subscriptions c [])
        c (setAdd (M.subscriptionsOf c) p) := by
  show mapSet _ c (setAdd ((mapGet (if mapHas M.subscriptions c then M.subscriptions
    else mapSet M.subscriptions c []) c).getD []) p) = _
  rw [mapGet_ensure]
  simp [Manager.subscriptionsOf]

theorem mapGet_dependents_subscribe {V : Type} (M : Manager V) (c : ClientId) (p q : Path) :
    mapGet (M.subscribe c p).dependents q =
      if p = q then some (setAdd (M.dependentsOf p) c) else mapGet M.dependents q := by
  rw [dependents_subscribe]
  by_cases hq : p = q
  · subst hq
    rw [mapGet_mapSet_self, if_pos rfl]
  · rw [mapGet_mapSet_ne _ _ hq, mapGet_ensure, if_neg hq, if_neg hq]

theorem mapGet_subscriptions_subscribe {V : Type} (M : Manager V) (c : ClientId) (p : Path)
    (x : ClientId) :
    mapGet (M.subscribe c p).subscriptions x =
      if c = x then some (setAdd (M.subscriptionsOf c) p) else mapGet M.subscriptions x := by
  rw [subscriptions_subscribe]
  by_cases hx : c = x
  · subst hx
    rw [mapGet_mapSet_self, if_pos rfl]
  · rw [mapGet_mapSet_ne _ _ hx, mapGet_ensure, if_neg hx, if_neg hx]

theorem dependentsOf_subscribe {V : Type} (M : Manager V) (c : ClientId) (p q : Path) :
    (M.subscribe c p).dependentsOf q =
      if p = q then setAdd (M.dependentsOf p) c else M.dependentsOf q := by
  unfold Manager.dependentsOf
  rw [mapGet_dependents_subscribe]
  by_cases hq : p = q <;> simp [hq, Manager.dependentsOf]

theorem subscriptionsOf_subscribe {V : Type} (M : Manager V) (c : ClientId) (p : Path)
    (x : ClientId) :
    (M.subscribe c p).subscriptionsOf x =
      if c = x then setAdd (M.subscriptionsOf c) p else M.subscriptionsOf x := by
  unfold Manager.subscriptionsOf
  rw [mapGet_subscriptions_subscribe]
  by_cases hx : c = x <;> simp [hx, Manager.subscriptionsOf]

theorem mem_dependentsOf_subscribe {V : Type} (M : Manager V) (c : ClientId) (p q : Path)
    (x : ClientId) :
    x ∈ (M.subscribe c p).dependentsOf q ↔ x ∈ M.dependentsOf q ∨ (p = q ∧ x = c) := by
  rw [dependentsOf_subscribe]
  by_cases hq : p = q
  · subst hq
    simp [mem_setAdd]
  · simp [hq]

theorem mem_subscriptionsOf_subscribe {V : Type} (M : Manager V) (c : ClientId) (p q : Path)
    (x : ClientId) :
    q ∈ (M.subscribe c p).subscriptionsOf x ↔ q ∈ M.subscriptionsOf x ∨ (c = x ∧ q = p) := by
  rw [subscriptionsOf_subscribe]
  by_cases hx : c = x
  · subst hx
    simp [mem_setAdd]
  · simp [hx]

theorem Sym_subscribe {V : Type} {M : Manager V} (h : Sym M) (c : ClientId) (p : Path) :
    Sym (M.subscribe c p) := by
  intro x q
  rw [mem_dependentsOf_subscribe, mem_subscriptionsOf_subscribe, h x q]
  constructor
  · rintro (hq | ⟨rfl, rfl⟩)
    · exact Or.inl hq
    · exact Or.inr ⟨rfl, rfl⟩
  · rintro (hq | ⟨rfl, rfl⟩)
    · exact Or.inl hq
    · exact Or.inr ⟨rfl, rfl⟩

theorem NodupSets_subscribe {V : Type} {M : Manager V} (h : NodupSets M) (c : ClientId)
    (p : Path) : NodupSets (M.subscribe c p) := by
  obtain ⟨hd, hs⟩ := h
  constructor
  · intro q
    rw [dependentsOf_subscribe]
    by_cases hq : p = q
    · simpa [hq] using nodup_setAdd c (hd p)
    · simpa [hq] using hd q
  · intro x
    rw [subscriptionsOf_subscribe]
    by_cases hx : c = x
    · simpa [hx] using nodup_setAdd p (hs c)
    · simpa [hx] using hs x

theorem WF_subscribe {V : Type} {M : Manager V} (h : WF M) (c : ClientId) (p : Path) :
    WF (M.subscribe c p) :=
  ⟨Sym_subscribe h.1 c p, NodupSets_subscribe h.2 c p⟩

/-! ## Lemmas about `unsubscribe` -/

theorem getD_mapGet_mapSet {K A : Type} [DecidableEq K] (m : List (K × List A)) (k q : K)
    (v : List A) :
    (mapGet (mapSet m k v) q).getD [] = if k = q then v else (mapGet m q).getD [] := by
  by_cases h : k = q
  · subst h
    simp [mapGet_mapSet_self]
  · simp [mapGet_mapSet_ne m v h, h]

theorem unsubStep_eq_error {V : Type} {M : Manager V} {client : ClientId} {target : Path}
    (h : mapGet M.dependents target = none) :
    Manager.unsubStep client M target =
      .error ⟨M.cache, M.dependents,
        mapSet M.subscriptions client (setDelete (M.subscriptionsOf client) target)⟩ := by
  unfold Manager.unsubStep
  rw [h]
  rfl

theorem unsubStep_eq_ok {V : Type} {M : Manager V} {client : ClientId} {target : Path}
    {ds : List ClientId} (h : mapGet M.dependents target = some ds) :
    Manager.unsubStep client M target =
      .ok ⟨M.cache, mapSet M.dependents target (setDelete ds client),
        mapSet M.subscriptions client (setDelete (M.subscriptionsOf client) target)⟩ := by
  unfold Manager.unsubStep
  rw [h]
  rfl

theorem subscribe_subscribe {V : Type} (M : Manager V) (c : ClientId) (p : Path) :
    (M.subscribe c p).subscribe c p = M.subscribe c p := by
  have hd : mapGet (M.subscribe c p).dependents p = some (setAdd (M.dependentsOf p) c) := by
    rw [mapGet_dependents_subscribe]
    simp
  have hs : mapGet (M.subscribe c p).subscriptions c
      = some (setAdd (M.subscriptionsOf c) p) := by
    rw [mapGet_subscriptions_subscribe]
    simp
  have hdof : (M.subscribe c p).dependentsOf p = setAdd (M.dependentsOf p) c := by
    rw [dependentsOf_subscribe]
    simp
  have hsof : (M.subscribe c p).subscriptionsOf c = setAdd (M.subscriptionsOf c) p := by
    rw [subscriptionsOf_subscribe]
    simp
  apply Manager.ext'
  · rfl
  · rw [dependents_subscribe (M.subscribe c p) c p, if_pos (by simp [mapHas, hd])]
    rw [hdof, setAdd_of_mem (mem_setAdd.2 (Or.inr rfl)), mapSet_mapGet_self hd]
  · rw [subscriptions_subscribe (M.subscribe c p) c p, if_pos (by simp [mapHas, hs])]
    rw [hsof, setAdd_of_mem (mem_setAdd.2 (Or.inr rfl)), mapSet_mapGet_self hs]

/-- The state carried by either outcome of an operation that may throw. -/
def Manager.exceptState {V : Type} : Except (Manager V) (Manager V) → Manager V
  | .ok st => st
  | .error st => st

theorem unsubState_eq_exceptState {V : Type} (M : Manager V) (c : ClientId) (p : Option Path) :
    M.unsubState c p = Manager.exceptState (M.unsubscribe c p) := by
  unfold Manager.unsubState Manager.exceptState
  cases M.unsubscribe c p <;> rfl

theorem unsubscribe_of_no_entry {V : Type} {M : Manager V} {c : ClientId}
    (hc : mapGet M.subscriptions c = none) (path : Option Path) :
    M.unsubscribe c path = .error M := by
  unfold Manager.unsubscribe
  rw [hc]

theorem unsubscribe_eq_loop_single {V : Type} {M : Manager V} {c : ClientId} {p : Path}
    {s : List Path} (hc : mapGet M.subscriptions c = some s) (hp : p ≠ "") :
    M.unsubscribe c (some p) = Manager.unsubLoop c M [p] := by
  unfold Manager.unsubscribe
  rw [hc]
  simp [hp]

theorem unsubscribe_eq_loop_none {V : Type} {M : Manager V} {c : ClientId}
    {s : List Path} (hc : mapGet M.subscriptions c = some s) :
    M.unsubscribe c none = Manager.unsubLoop c M s := by
  unfold Manager.unsubscribe
  rw [hc]

theorem unsubscribe_eq_loop_empty_path {V : Type} {M : Manager V} {c : ClientId}
    {s : List Path} (hc : mapGet M.subscriptions c = some s) :
    M.unsubscribe c (some "") = Manager.unsubLoop c M s := by
  unfold Manager.unsubscribe
  rw [hc]
  simp

/-! ## Well-formedness is preserved by the `unsubscribe` family, crashes
included -/

theorem WF_unsubStep {V : Type} {M : Manager V} (h : WF M) (client : ClientId)
    (target : Path) : WF (Manager.exceptState (Manager.unsubStep client M target)) := by
  obtain ⟨hsym, hnodd, hnods⟩ := And.intro h.1 h.2
  cases hd : mapGet M.dependents target with
  | none =>
    rw [unsubStep_eq_error hd]
    have hdep : M.dependentsOf target = [] := by
      simp [Manager.dependentsOf, hd]
    constructor
    · intro x q
      show x ∈ M.dependentsOf q ↔
        q ∈ (mapGet (mapSet M.subscriptions client
          (setDelete (M.subscriptionsOf client) target)) x).getD []
      rw [getD_mapGet_mapSet]
      by_cases hx : client = x
      · subst hx
        rw [if_pos rfl, mem_setDelete]
        by_cases hq : q = target
        · subst hq
          rw [hdep]
          simp
        · constructor
          · intro hin
            exact ⟨(hsym client q).1 hin, hq⟩
          · rintro ⟨hin, -⟩
            exact (hsym client q).2 hin
      · rw [if_neg hx]
        exact hsym x q
    · constructor
      · intro q
        exact hnodd q
      · intro x
        show ((mapGet (mapSet M.subscriptions client
          (setDelete (M.subscriptionsOf client) target)) x).getD []).Nodup
        rw [getD_mapGet_mapSet]
        by_cases hx : client = x
        · rw [if_pos hx]
          exact nodup_setDelete _ (hnods client)
        · rw [if_neg hx]
          exact hnods x
  | some ds =>
    rw [unsubStep_eq_ok hd]
    have hds : M.dependentsOf target = ds := by
      simp [Manager.dependentsOf, hd]
    constructor
    · intro x q
      show x ∈ (mapGet (mapSet M.dependents target (setDelete ds client)) q).getD [] ↔
        q ∈ (mapGet (mapSet M.subscriptions client
          (setDelete (M.subscriptionsOf client) target)) x).getD []
      rw [getD_mapGet_mapSet, getD_mapGet_mapSet]
      by_cases hq : target = q
      · subst hq
        rw [if_pos rfl]
        by_cases hx : client = x
        · subst hx
          rw [if_pos rfl, mem_setDelete, mem_setDelete]
          constructor
          · rintro ⟨-, hne⟩
            exact absurd rfl hne
          · rintro ⟨-, hne⟩
            exact absurd rfl hne
        · rw [if_neg hx, mem_setDelete, ← hds]
          constructor
          · rintro ⟨hin, -⟩
            exact (hsym x target).1 hin
          · intro hin
            refine ⟨(hsym x target).2 hin, ?_⟩
            intro hxc
            exact hx hxc.symm
      · rw [if_neg hq]
        by_cases hx : client = x
        · subst hx
          rw [if_pos rfl, mem_setDelete]
          constructor
          · intro hin
            refine ⟨(hsym client q).1 hin, ?_⟩
            intro hqt
            exact hq hqt.symm
          · rintro ⟨hin, -⟩
            exact (hsym client q).2 hin
        · rw [if_neg hx]
          exact hsym x q
    · constructor
      · intro q
        show ((mapGet (mapSet M.dependents target (setDelete ds client)) q).getD []).Nodup
        rw [getD_mapGet_mapSet]
        by_cases hq : target = q
        · rw [if_pos hq]
          exact nodup_setDelete _ (hds ▸ hnodd target)
        · rw [if_neg hq]
          exact hnodd q
      · intro x
        show ((mapGet (mapSet M.subscriptions client
          (setDelete (M.subscriptionsOf client) target)) x).getD []).Nodup
        rw [getD_mapGet_mapSet]
        by_cases hx : client = x
        · rw [if_pos hx]
          exact nodup_setDelete _ (hnods client)
        · rw [if_neg hx]
          exact hnods x

theorem WF_unsubLoop {V : Type} (client : ClientId) :
    ∀ (R : List Path) (M : Manager V), WF M →
      WF (Manager.exceptState (Manager.unsubLoop client M R)) := by
  intro R
  induction R with
  | nil =>
    intro M h
    exact h
  | cons t R ih =>
    intro M h
    have hstep := WF_unsubStep h client t
    unfold Manager.unsubLoop
    cases hs : Manager.unsubStep client M t with
    | error st =>
      rw [hs] at hstep
      exact hstep
    | ok st =>
      rw [hs] at hstep
      exact ih st hstep

theorem WF_unsubscribe {V : Type} {M : Manager V} (h : WF M) (c : ClientId)
    (p : Option Path) : WF (M.unsubState c p) := by
  rw [unsubState_eq_exceptState]
  cases hc : mapGet M.subscriptions c with
  | none =>
    rw [unsubscribe_of_no_entry hc]
    exact h
  | some s =>
    unfold Manager.unsubscribe
    rw [hc]
    exact WF_unsubLoop c _ M h

theorem setDelete_setDelete {A : Type} [DecidableEq A] (s : List A) (a : A) :
    setDelete (setDelete s a) a = setDelete s a := by
  unfold setDelete
  rw [List.filter_filter]
  apply List.filter_congr
  intro b hb
  simp

theorem filter_setDelete {A : Type} [DecidableEq A] (s : List A) (t : A) (R : List A) :
    (setDelete s t).filter (fun a => a ∉ R) = s.filter (fun a => a ∉ t :: R) := by
  unfold setDelete
  rw [List.filter_filter]
  apply List.filter_congr
  intro b hb
  by_cases hbt : b = t
  · subst hbt
    simp
  · by_cases hbR : b ∈ R <;> simp [hbt, hbR]

/-- Exact behaviour of the `remove.forEach` loop when every target has a
`dependents` entry: it succeeds, deletes `client` from the dependent set of
every target, removes the targets from `client`'s subscription set, and
touches nothing else. -/
theorem unsubLoop_spec {V : Type} (client : ClientId) :
    ∀ (R : List Path) (M : Manager V),
      (∀ t ∈ R, (mapGet M.dependents t).isSome) →
      ∃ N, Manager.unsubLoop client M R = .ok N ∧
        N.cache = M.cache ∧
        (∀ q, mapGet N.dependents q = if q ∈ R
          then (mapGet M.dependents q).map (fun ds => setDelete ds client)
          else mapGet M.dependents q) ∧
        (∀ x, x ≠ client → mapGet N.subscriptions x = mapGet M.subscriptions x) ∧
        N.subscriptionsOf client = (M.subscriptionsOf client).filter (fun t => t ∉ R) ∧
        ((mapGet M.subscriptions client).isSome → (mapGet N.subscriptions client).isSome) := by
  intro R
  induction R with
  | nil =>
    intro M h
    refine ⟨M, rfl, rfl, by simp, fun x _ => rfl, ?_, fun h => h⟩
    simp
  | cons t R ih =>
    intro M h
    obtain ⟨ds, hds⟩ := Option.isSome_iff_exists.1 (h t (by simp))
    have hstep := @unsubStep_eq_ok V M client t ds hds
    set M1 : Manager V := ⟨M.cache, mapSet M.dependents t (setDelete ds client),
      mapSet M.subscriptions client (setDelete (M.subscriptionsOf client) t)⟩ with hM1
    have hpre : ∀ u ∈ R, (mapGet M1.dependents u).isSome := by
      intro u hu
      exact isSome_mapGet_mapSet _ _ _ _ (h u (List.mem_cons_of_mem t hu))
    obtain ⟨N, hN, hcache, hdeps, hsubs, hsubc, hsome⟩ := ih M1 hpre
    refine ⟨N, ?_, ?_, ?_, ?_, ?_, ?_⟩
    · unfold Manager.unsubLoop
      rw [hstep]
      exact hN
    · rw [hcache]
    · intro q
      rw [hdeps q]
      have hM1d : ∀ q', mapGet M1.dependents q' =
          if t = q' then some (setDelete ds client) else mapGet M.dependents q' := by
        intro q'
        by_cases hq' : t = q'
        · subst hq'
          simp [hM1, mapGet_mapSet_self]
        · simp [hM1, mapGet_mapSet_ne _ _ hq', hq']
      by_cases hqR : q ∈ R
      · rw [if_pos hqR, if_pos (List.mem_cons_of_mem t hqR), hM1d q]
        by_cases hqt : t = q
        · subst hqt
          rw [if_pos rfl, hds]
          simp [setDelete_setDelete]
        · rw [if_neg hqt]
      · by_cases hqt : t = q
        · subst hqt
          rw [if_neg hqR, if_pos (List.mem_cons_self t R), hM1d t, if_pos rfl, hds]
          rfl
        · rw [if_neg hqR, if_neg ?_, hM1d q, if_neg hqt]
          intro hmem
          rcases List.mem_cons.1 hmem with h1 | h2
          · exact hqt h1.symm
          · exact hqR h2
    · intro x hx
      rw [hsubs x hx]
      show mapGet (mapSet M.subscriptions client (setDelete (M.subscriptionsOf client) t)) x
        = mapGet M.subscriptions x
      exact mapGet_mapSet_ne _ _ (fun hcx => hx hcx.symm)
    · rw [hsubc]
      have h1 : M1.subscriptionsOf client = setDelete (M.subscriptionsOf client) t := by
        simp [hM1, Manager.subscriptionsOf, mapGet_mapSet_self]
      rw [h1, filter_setDelete]
    · intro _
      apply hsome
      show (mapGet (mapSet M.subscriptions client
        (setDelete (M.subscriptionsOf client) t)) client).isSome
      rw [mapGet_mapSet_self]
      rfl


theorem isSome_of_mem_getD {K A : Type} [DecidableEq K] {m : List (K × List A)} {k : K}
    {x : A} (h : x ∈ (mapGet m k).getD []) : (mapGet m k).isSome := by
  cases hm : mapGet m k
  · rw [hm] at h
    simp at h
  · rfl

/-- Behaviour of `this.unsubscribe(client, path)` as invoked by the 404
cascade, on a symmetric state in which `client` is currently a dependent of
`p`: it succeeds, removes the `(client, p)` edge (and, when `p` is the falsy
empty string, every other edge of `client` as well — the set `R` of removed
targets always contains `p`), deletes only `client` from dependent sets, and
leaves every other client's subscription set untouched. -/
theorem unsubscribe_cascade_spec {V : Type} {M : Manager V} {c : ClientId} {p : Path}
    (hsym : Sym M) (hin : c ∈ M.dependentsOf p) :
    ∃ (N : Manager V) (R : List Path), M.unsubscribe c (some p) = .ok N ∧ p ∈ R ∧
      N.cache = M.cache ∧
      (∀ q, mapGet N.dependents q = if q ∈ R
        then (mapGet M.dependents q).map (fun ds => setDelete ds c)
        else mapGet M.dependents q) ∧
      (∀ x, x ≠ c → mapGet N.subscriptions x = mapGet M.subscriptions x) ∧
      N.subscriptionsOf c = (M.subscriptionsOf c).filter (fun t => t ∉ R) ∧
      (mapGet N.subscriptions c).isSome := by
  have hp_subs : p ∈ M.subscriptionsOf c := (hsym c p).1 hin
  have hcs_some : (mapGet M.subscriptions c).isSome := isSome_of_mem_getD hp_subs
  obtain ⟨s, hcs⟩ := Option.isSome_iff_exists.1 hcs_some
  have hs_eq : M.subscriptionsOf c = s := by
    simp [Manager.subscriptionsOf, hcs]
  by_cases hp0 : p = ""
  · subst hp0
    have hpre : ∀ t ∈ s, (mapGet M.dependents t).isSome := by
      intro t ht
      have hct : c ∈ M.dependentsOf t := (hsym c t).2 (hs_eq ▸ ht)
      exact isSome_of_mem_getD hct
    obtain ⟨N, hN, hcache, hdeps, hsubs, hsubc, hsome⟩ := unsubLoop_spec c s M hpre
    refine ⟨N, s, ?_, hs_eq ▸ hp_subs, hcache, hdeps, hsubs, hsubc, hsome hcs_some⟩
    rw [unsubscribe_eq_loop_empty_path hcs]
    exact hN
  · have hpre : ∀ t ∈ [p], (mapGet M.dependents t).isSome := by
      intro t ht
      rw [List.mem_singleton] at ht
      subst ht
      exact isSome_of_mem_getD hin
    obtain ⟨N, hN, hcache, hdeps, hsubs, hsubc, hsome⟩ := unsubLoop_spec c [p] M hpre
    refine ⟨N, [p], ?_, List.mem_singleton_self p, hcache, hdeps, hsubs, hsubc,
      hsome hcs_some⟩
    rw [unsubscribe_eq_loop_single hcs hp0]
    exact hN

theorem cascade_cons {V : Type} (p : Path) (c : ClientId) (rest : List ClientId)
    (M : Manager V) (ns : List (Notif V)) :
    Manager.cascade p M ns (c :: rest) =
      match M.unsubscribe c (some p) with
      | .error st => .error (st, ns)
      | .ok st => Manager.cascade p st (ns ++ [(c, p, none)]) rest := by
  rfl

theorem cascade_append {V : Type} (p : Path) (l1 l2 : List ClientId) :
    ∀ (M : Manager V) (ns : List (Notif V)),
      Manager.cascade p M ns (l1 ++ l2) =
        match Manager.cascade p M ns l1 with
        | .error e => .error e
        | .ok (st, ns1) => Manager.cascade p st ns1 l2 := by
  induction l1 with
  | nil =>
    intro M ns
    rfl
  | cons c l1 ih =>
    intro M ns
    rw [List.cons_append, cascade_cons, cascade_cons]
    cases hu : M.unsubscribe c (some p) with
    | error st => rfl
    | ok st => exact ih st (ns ++ [(c, p, none)])

/-- Exact behaviour of the 404 eviction cascade on a well-formed state whose
dependent snapshot is `ds`: it succeeds, emits exactly one `(c, p, absent)`
notification per dependent in snapshot order, empties the dependent set of
`p`, removes `p` from every dependent's subscription set, never grows any
subscription set, and keeps every existing map entry. -/
theorem cascade_spec {V : Type} (p : Path) :
    ∀ (ds : List ClientId) (M : Manager V) (ns : List (Notif V)),
      WF M → ds.Nodup → (∀ c ∈ ds, c ∈ M.dependentsOf p) →
      ∃ N, Manager.cascade p M ns ds =
          .ok (N, ns ++ ds.map (fun c => (c, p, none))) ∧
        WF N ∧ N.cache = M.cache ∧
        (∀ x, x ∈ N.dependentsOf p ↔ (x ∈ M.dependentsOf p ∧ x ∉ ds)) ∧
        (∀ c ∈ ds, p ∉ N.subscriptionsOf c) ∧
        (∀ x q, q ∈ N.subscriptionsOf x → q ∈ M.subscriptionsOf x) ∧
        (∀ q, (mapGet M.dependents q).isSome → (mapGet N.dependents q).isSome) ∧
        (∀ x, (mapGet M.subscriptions x).isSome → (mapGet N.subscriptions x).isSome) := by
  intro ds
  induction ds with
  | nil =>
    intro M ns hWF _ _
    refine ⟨M, by simp [Manager.cascade], hWF, rfl, by simp, by simp,
      fun x q h => h, fun q h => h, fun x h => h⟩
  | cons c rest ih =>
    intro M ns hWF hnd hpre
    have hin : c ∈ M.dependentsOf p := hpre c (List.mem_cons_self c rest)
    obtain ⟨N1, R, hok, hpR, hcache1, hdeps1, hsubs1, hsubc1, hsome1⟩ :=
      unsubscribe_cascade_spec hWF.1 hin
    have hWF1 : WF N1 := by
      have h := WF_unsubscribe hWF c (some p)
      rwa [unsubState_eq_exceptState, hok] at h
    have hdepsP : N1.dependentsOf p = setDelete (M.dependentsOf p) c := by
      unfold Manager.dependentsOf
      rw [hdeps1 p, if_pos hpR]
      obtain ⟨ds0, hds0⟩ := Option.isSome_iff_exists.1 (isSome_of_mem_getD hin)
      simp [hds0, Manager.dependentsOf]
    have hpre1 : ∀ x ∈ rest, x ∈ N1.dependentsOf p := by
      intro x hx
      rw [hdepsP, mem_setDelete]
      refine ⟨hpre x (List.mem_cons_of_mem c hx), ?_⟩
      intro hxc
      subst hxc
      exact (List.nodup_cons.1 hnd).1 hx
    obtain ⟨N, hN, hWFN, hcacheN, hdepsN, hsubsN, hmono, hdsome, hssome⟩ :=
      ih N1 (ns ++ [(c, p, none)]) hWF1 (List.nodup_cons.1 hnd).2 hpre1
    have hsubs_mono1 : ∀ x q, q ∈ N1.subscriptionsOf x → q ∈ M.subscriptionsOf x := by
      intro x q hq
      by_cases hx : x = c
      · subst hx
        rw [hsubc1] at hq
        exact (List.mem_filter.1 hq).1
      · unfold Manager.subscriptionsOf at hq ⊢
        rwa [hsubs1 x hx] at hq
    refine ⟨N, ?_, hWFN, by rw [hcacheN, hcache1], ?_, ?_, ?_, ?_, ?_⟩
    · rw [cascade_cons, hok]
      show Manager.cascade p N1 (ns ++ [(c, p, none)]) rest = _
      rw [hN]
      simp
    · intro x
      rw [hdepsN x, hdepsP, mem_setDelete]
      constructor
      · rintro ⟨⟨hxM, hxc⟩, hxrest⟩
        refine ⟨hxM, ?_⟩
        intro hmem
        rcases List.mem_cons.1 hmem with h1 | h2
        · exact hxc h1
        · exact hxrest h2
      · rintro ⟨hxM, hnotin⟩
        refine ⟨⟨hxM, fun hxc => hnotin (hxc ▸ List.mem_cons_self c rest)⟩, ?_⟩
        intro hx
        exact hnotin (List.mem_cons_of_mem c hx)
    · intro x hx
      rcases List.mem_cons.1 hx with h1 | h2
      · subst h1
        intro hcontra
        have hq1 : p ∈ N1.subscriptionsOf x := hmono x p hcontra
        rw [hsubc1] at hq1
        have hq2 := (List.mem_filter.1 hq1).2
        simp [hpR] at hq2
      · exact hsubsN x h2
    · intro x q hq
      exact hsubs_mono1 x q (hmono x q hq)
    · intro q hq
      apply hdsome
      rw [hdeps1 q]
      by_cases hqR : q ∈ R
      · rw [if_pos hqR]
        simpa using hq
      · rwa [if_neg hqR]
    · intro x hx
      apply hssome
      by_cases hxc : x = c
      · subst hxc
        exact hsome1
      · rwa [hsubs1 x hxc]

/-! ## Characterization of `update` -/

theorem update_success {V : Type} (gen : Verb → Path → Option V → Reply V) (M : Manager V)
    (path : Path) (h : (gen Verb.get path none).isError = false) :
    Manager.update gen M path = .ok
      (⟨mapSet M.cache path (gen Verb.get path none).payload, M.dependents, M.subscriptions⟩,
       ⟨[(Verb.get, path, none)],
        (M.dependentsOf path).map (fun c => (c, path, (gen Verb.get path none).payload))⟩,
       gen Verb.get path none) := by
  unfold Manager.update
  dsimp only
  rw [h]
  simp only [if_pos rfl]
  cases hd : mapGet M.dependents path with
  | none =>
    have hdof : M.dependentsOf path = [] := by
      simp [Manager.dependentsOf, hd]
    simp [hdof]
  | some ds =>
    have hdof : M.dependentsOf path = ds := by
      simp [Manager.dependentsOf, hd]
    simp [hdof, mapGet_mapSet_self]

theorem update_other_error {V : Type} (gen : Verb → Path → Option V → Reply V)
    (M : Manager V) (path : Path) (h1 : (gen Verb.get path none).isError = true)
    (h2 : (gen Verb.get path none).status ≠ 404) :
    Manager.update gen M path =
      .ok (M, ⟨[(Verb.get, path, none)], []⟩, gen Verb.get path none) := by
  unfold Manager.update
  dsimp only
  rw [h1]
  simp only [Bool.true_eq_false, if_false, if_neg h2]

/-- `update` on a 404 error from the resolver, on a well-formed state:
the cache entry is removed, the whole dependent set of `path` is unsubscribed
and notified once each with `(path, undefined)` in snapshot order, no other
subscription grows, and existing map entries survive. -/
theorem update_404 {V : Type} (gen : Verb → Path → Option V → Reply V) (M : Manager V)
    (path : Path) (h1 : (gen Verb.get path none).isError = true)
    (h2 : (gen Verb.get path none).status = 404) (hWF : WF M) :
    ∃ N, Manager.update gen M path = .ok
        (N, ⟨[(Verb.get, path, none)],
          (M.dependentsOf path).map (fun c => (c, path, none))⟩, gen Verb.get path none) ∧
      WF N ∧ N.cache = mapDelete M.cache path ∧
      (∀ x, x ∉ N.dependentsOf path) ∧
      (∀ c ∈ M.dependentsOf path, path ∉ N.subscriptionsOf c) ∧
      (∀ x q, q ∈ N.subscriptionsOf x → q ∈ M.subscriptionsOf x) ∧
      (∀ q, (mapGet M.dependents q).isSome → (mapGet N.dependents q).isSome) ∧
      (∀ x, (mapGet M.subscriptions x).isSome → (mapGet N.subscriptions x).isSome) := by
  have hWF1 : WF (⟨mapDelete M.cache path, M.dependents, M.subscriptions⟩ : Manager V) := hWF
  obtain ⟨N, hcas, hWFN, hcache, hdeps, hsubs, hmono, hd, hs⟩ :=
    cascade_spec path (M.dependentsOf path)
      (⟨mapDelete M.cache path, M.dependents, M.subscriptions⟩ : Manager V) []
      hWF1 (hWF.2.1 path) (fun c hc => hc)
  refine ⟨N, ?_, hWFN, hcache, ?_, hsubs, hmono, hd, hs⟩
  · unfold Manager.update
    dsimp only
    rw [h1]
    simp only [Bool.true_eq_false, if_false, h2, if_pos rfl]
    cases hdm : mapGet M.dependents path with
    | none =>
      have hdof : M.dependentsOf path = [] := by
        simp [Manager.dependentsOf, hdm]
      rw [hdof] at hcas
      simp [hcas, hdof]
    | some ds =>
      have hdof : M.dependentsOf path = ds := by
        simp [Manager.dependentsOf, hdm]
      rw [hdof] at hcas
      simp [hcas, hdof]
  · intro x hx
    obtain ⟨hmem, hnot⟩ := (hdeps x).1 hx
    exact hnot hmem

/-- `update` on a 404 error, reduced to the cascade call (no well-formedness
assumption; covers the crash outcome too). -/
theorem update_404_raw {V : Type} (gen : Verb → Path → Option V → Reply V) (M : Manager V)
    (path : Path) (h1 : (gen Verb.get path none).isError = true)
    (h2 : (gen Verb.get path none).status = 404) :
    Manager.update gen M path =
      match Manager.cascade path
          (⟨mapDelete M.cache path, M.dependents, M.subscriptions⟩ : Manager V) []
          (M.dependentsOf path) with
      | .error (st, ns) => .error (st, ⟨[(Verb.get, path, none)], ns⟩)
      | .ok (st, ns) => .ok (st, ⟨[(Verb.get, path, none)], ns⟩, gen Verb.get path none) := by
  unfold Manager.update
  dsimp only
  rw [h1]
  simp only [Bool.true_eq_false, if_false, h2, if_pos rfl]
  cases hdm : mapGet M.dependents path with
  | none =>
    have hdof : M.dependentsOf path = [] := by
      simp [Manager.dependentsOf, hdm]
    rw [hdof]
    rfl
  | some ds =>
    have hdof : M.dependentsOf path = ds := by
      simp [Manager.dependentsOf, hdm]
    rw [hdof]
    rfl

theorem updState_success {V : Type} (gen : Verb → Path → Option V → Reply V)
    (M : Manager V) (path : Path) (h : (gen Verb.get path none).isError = false) :
    Manager.updState gen M path =
      ⟨mapSet M.cache path (gen Verb.get path none).payload, M.dependents,
        M.subscriptions⟩ := by
  unfold Manager.updState
  rw [update_success gen M path h]

theorem updState_other_error {V : Type} (gen : Verb → Path → Option V → Reply V)
    (M : Manager V) (path : Path) (h1 : (gen Verb.get path none).isError = true)
    (h2 : (gen Verb.get path none).status ≠ 404) :
    Manager.updState gen M path = M := by
  unfold Manager.updState
  rw [update_other_error gen M path h1 h2]

theorem WF_updState {V : Type} {M : Manager V} (hWF : WF M)
    (gen : Verb → Path → Option V → Reply V) (path : Path) :
    WF (Manager.updState gen M path) := by
  cases he : (gen Verb.get path none).isError with
  | false =>
    rw [updState_success gen M path he]
    exact hWF
  | true =>
    by_cases h4 : (gen Verb.get path none).status = 404
    · obtain ⟨N, hupd, hWFN, _⟩ := update_404 gen M path he h4 hWF
      unfold Manager.updState
      rw [hupd]
      exact hWFN
    · rw [updState_other_error gen M path he h4]
      exact hWF

/-! ## Characterization of `get` and the mutating verbs -/

theorem get_cached {V : Type} (gen : Verb → Path → Option V → Reply V) (M : Manager V)
    (path : Path) (h : mapHas M.cache path = true) :
    Manager.get gen M path =
      .ok (M, ⟨[], []⟩, Reply.OK ((mapGet M.cache path).getD none)) := by
  unfold Manager.get
  rw [if_pos h]

theorem get_uncached {V : Type} (gen : Verb → Path → Option V → Reply V) (M : Manager V)
    (path : Path) (h : mapHas M.cache path = false) :
    Manager.get gen M path = Manager.update gen M path := by
  unfold Manager.get
  rw [if_neg (by rw [h]; exact Bool.false_ne_true)]

theorem getState_eq {V : Type} (gen : Verb → Path → Option V → Reply V) (M : Manager V)
    (path : Path) :
    Manager.getState gen M path =
      if mapHas M.cache path then M else Manager.updState gen M path := by
  by_cases h : mapHas M.cache path = true
  · unfold Manager.getState
    rw [get_cached gen M path h, if_pos h]
  · have hf : mapHas M.cache path = false := by
      cases hb : mapHas M.cache path
      · rfl
      · exact absurd hb h
    unfold Manager.getState
    rw [get_uncached gen M path hf, if_neg h]
    rfl

theorem WF_getState {V : Type} {M : Manager V} (hWF : WF M)
    (gen : Verb → Path → Option V → Reply V) (path : Path) :
    WF (Manager.getState gen M path) := by
  rw [getState_eq]
  by_cases h : mapHas M.cache path = true
  · rw [if_pos h]
    exact hWF
  · rw [if_neg h]
    exact WF_updState hWF gen path

theorem post_fst {V : Type} (gen : Verb → Path → Option V → Reply V) (M : Manager V)
    (p : Path) (d : Option V) :
    (Manager.post gen M p d).1 =
      if (gen Verb.post p d).isError = false then Manager.updState gen M p else M := by
  unfold Manager.post
  by_cases h : (gen Verb.post p d).isError = false <;> simp [h]

theorem put_fst {V : Type} (gen : Verb → Path → Option V → Reply V) (M : Manager V)
    (p : Path) (d : Option V) :
    (Manager.put gen M p d).1 =
      if (gen Verb.put p d).isError = false then Manager.updState gen M p else M := by
  unfold Manager.put
  by_cases h : (gen Verb.put p d).isError = false <;> simp [h]

theorem patch_fst {V : Type} (gen : Verb → Path → Option V → Reply V) (M : Manager V)
    (p : Path) (d : Option V) :
    (Manager.patch gen M p d).1 =
      if (gen Verb.patch p d).isError = false then Manager.updState gen M p else M := by
  unfold Manager.patch
  by_cases h : (gen Verb.patch p d).isError = false <;> simp [h]

theorem delete_fst {V : Type} (gen : Verb → Path → Option V → Reply V) (M : Manager V)
    (p : Path) :
    (Manager.delete gen M p).1 =
      if (gen Verb.delete p none).isError = false then Manager.updState gen M p else M := by
  unfold Manager.delete
  by_cases h : (gen Verb.delete p none).isError = false <;> simp [h]

/-! ## Well-formedness of every reachable state -/

theorem WF_step {V : Type} {M N : Manager V} (hWF : WF M) (h : Step M N) : WF N := by
  cases h with
  | sub M c p => exact WF_subscribe hWF c p
  | unsub M c p => exact WF_unsubscribe hWF c p
  | upd gen M p => exact WF_updState hWF gen p
  | getOp gen M p => exact WF_getState hWF gen p
  | postOp gen M p d =>
    rw [post_fst]
    by_cases h : (gen Verb.post p d).isError = false
    · rw [if_pos h]
      exact WF_updState hWF gen p
    · rw [if_neg h]
      exact hWF
  | putOp gen M p d =>
    rw [put_fst]
    by_cases h : (gen Verb.put p d).isError = false
    · rw [if_pos h]
      exact WF_updState hWF gen p
    · rw [if_neg h]
      exact hWF
  | patchOp gen M p d =>
    rw [patch_fst]
    by_cases h : (gen Verb.patch p d).isError = false
    · rw [if_pos h]
      exact WF_updState hWF gen p
    · rw [if_neg h]
      exact hWF
  | deleteOp gen M p =>
    rw [delete_fst]
    by_cases h : (gen Verb.delete p none).isError = false
    · rw [if_pos h]
      exact WF_updState hWF gen p
    · rw [if_neg h]
      exact hWF

theorem WF_initial (V : Type) : WF (Manager.initial V) := by
  refine ⟨fun c p => ?_, fun p => ?_, fun c => ?_⟩
  · simp [Manager.dependentsOf, Manager.subscriptionsOf, Manager.initial, mapGet]
  · simp [Manager.dependentsOf, Manager.initial, mapGet]
  · simp [Manager.subscriptionsOf, Manager.initial, mapGet]

theorem WF_of_reachable {V : Type} {M N : Manager V} (hWF : WF M) (h : Reachable M N) :
    WF N := by
  induction h with
  | refl => exact hWF
  | tail h1 h2 ih => exact WF_step ih h2

theorem WF_reachable_initial {V : Type} {M : Manager V}
    (h : Reachable (Manager.initial V) M) : WF M :=
  WF_of_reachable (WF_initial V) h

/-! ## Map entries of the subscription graph are never deleted -/

/-- Both graph maps of `N` contain every key the maps of `M` contain. -/
def EntriesLE {V : Type} (M N : Manager V) : Prop :=
  (∀ c : ClientId, (mapGet M.subscriptions c).isSome → (mapGet N.subscriptions c).isSome) ∧
  (∀ p : Path, (mapGet M.dependents p).isSome → (mapGet N.dependents p).isSome)

theorem EntriesLE.rfl' {V : Type} (M : Manager V) : EntriesLE M M :=
  ⟨fun _ h => h, fun _ h => h⟩

theorem EntriesLE.trans' {V : Type} {M N P : Manager V} (h1 : EntriesLE M N)
    (h2 : EntriesLE N P) : EntriesLE M P :=
  ⟨fun c h => h2.1 c (h1.1 c h), fun p h => h2.2 p (h1.2 p h)⟩

theorem entriesLE_subscribe {V : Type} (M : Manager V) (c : ClientId) (p : Path) :
    EntriesLE M (M.subscribe c p) := by
  constructor
  · intro x hx
    rw [mapGet_subscriptions_subscribe]
    by_cases hcx : c = x
    · rw [if_pos hcx]
      rfl
    · rw [if_neg hcx]
      exact hx
  · intro q hq
    rw [mapGet_dependents_subscribe]
    by_cases hpq : p = q
    · rw [if_pos hpq]
      rfl
    · rw [if_neg hpq]
      exact hq

theorem entriesLE_unsubStep {V : Type} (client : ClientId) (M : Manager V) (target : Path) :
    EntriesLE M (Manager.exceptState (Manager.unsubStep client M target)) := by
  cases hd : mapGet M.dependents target with
  | none =>
    rw [unsubStep_eq_error hd]
    exact ⟨fun c h => isSome_mapGet_mapSet _ _ _ _ h, fun p h => h⟩
  | some ds =>
    rw [unsubStep_eq_ok hd]
    exact ⟨fun c h => isSome_mapGet_mapSet _ _ _ _ h,
      fun p h => isSome_mapGet_mapSet _ _ _ _ h⟩

theorem entriesLE_unsubLoop {V : Type} (client : ClientId) :
    ∀ (R : List Path) (M : Manager V),
      EntriesLE M (Manager.exceptState (Manager.unsubLoop client M R)) := by
  intro R
  induction R with
  | nil =>
    intro M
    exact EntriesLE.rfl' M
  | cons t R ih =>
    intro M
    have hstep := entriesLE_unsubStep client M t
    unfold Manager.unsubLoop
    cases hs : Manager.unsubStep client M t with
    | error st =>
      rw [hs] at hstep
      exact hstep
    | ok st =>
      rw [hs] at hstep
      exact EntriesLE.trans' hstep (ih st)

theorem entriesLE_unsubscribe {V : Type} (M : Manager V) (c : ClientId) (p : Option Path) :
    EntriesLE M (M.unsubState c p) := by
  rw [unsubState_eq_exceptState]
  cases hc : mapGet M.subscriptions c with
  | none =>
    rw [unsubscribe_of_no_entry hc]
    exact EntriesLE.rfl' M
  | some s =>
    unfold Manager.unsubscribe
    rw [hc]
    exact entriesLE_unsubLoop c _ M

/-- The state carried by either outcome of the cascade. -/
def Manager.cascadeState {V : Type} :
    Except (Manager V × List (Notif V)) (Manager V × List (Notif V)) → Manager V
  | .ok (st, _) => st
  | .error (st, _) => st

theorem entriesLE_cascade {V : Type} (p : Path) :
    ∀ (ds : List ClientId) (M : Manager V) (ns : List (Notif V)),
      EntriesLE M (Manager.cascadeState (Manager.cascade p M ns ds)) := by
  intro ds
  induction ds with
  | nil =>
    intro M ns
    exact EntriesLE.rfl' M
  | cons c rest ih =>
    intro M ns
    rw [cascade_cons]
    have hstep := entriesLE_unsubscribe M c (some p)
    rw [unsubState_eq_exceptState] at hstep
    cases hu : M.unsubscribe c (some p) with
    | error st =>
      rw [hu] at hstep
      exact hstep
    | ok st =>
      rw [hu] at hstep
      exact EntriesLE.trans' hstep (ih st (ns ++ [(c, p, none)]))

theorem entriesLE_updState {V : Type} (gen : Verb → Path → Option V → Reply V)
    (M : Manager V) (path : Path) : EntriesLE M (Manager.updState gen M path) := by
  cases he : (gen Verb.get path none).isError with
  | false =>
    rw [updState_success gen M path he]
    exact ⟨fun c h => h, fun q h => h⟩
  | true =>
    by_cases h4 : (gen Verb.get path none).status = 404
    · unfold Manager.updState
      rw [update_404_raw gen M path he h4]
      have h := entriesLE_cascade path (M.dependentsOf path)
        (⟨mapDelete M.cache path, M.dependents, M.subscriptions⟩ : Manager V) []
      cases hc : Manager.cascade path
          (⟨mapDelete M.cache path, M.dependents, M.subscriptions⟩ : Manager V) []
          (M.dependentsOf path) with
      | error e =>
        obtain ⟨st, ns⟩ := e
        rw [hc] at h
        exact h
      | ok o =>
        obtain ⟨st, ns⟩ := o
        rw [hc] at h
        exact h
    · rw [updState_other_error gen M path he h4]
      exact EntriesLE.rfl' M

theorem entriesLE_getState {V : Type} (gen : Verb → Path → Option V → Reply V)
    (M : Manager V) (path : Path) : EntriesLE M (Manager.getState gen M path) := by
  rw [getState_eq]
  by_cases h : mapHas M.cache path = true
  · rw [if_pos h]
    exact EntriesLE.rfl' M
  · rw [if_neg h]
    exact entriesLE_updState gen M path

theorem entriesLE_step {V : Type} {M N : Manager V} (h : Step M N) : EntriesLE M N := by
  cases h with
  | sub M c p => exact entriesLE_subscribe M c p
  | unsub M c p => exact entriesLE_unsubscribe M c p
  | upd gen M p => exact entriesLE_updState gen M p
  | getOp gen M p => exact entriesLE_getState gen M p
  | postOp gen M p d =>
    rw [post_fst]
    by_cases h : (gen Verb.post p d).isError = false
    · rw [if_pos h]
      exact entriesLE_updState gen M p
    · rw [if_neg h]
      exact EntriesLE.rfl' M
  | putOp gen M p d =>
    rw [put_fst]
    by_cases h : (gen Verb.put p d).isError = false
    · rw [if_pos h]
      exact entriesLE_updState gen M p
    · rw [if_neg h]
      exact EntriesLE.rfl' M
  | patchOp gen M p d =>
    rw [patch_fst]
    by_cases h : (gen Verb.patch p d).isError = false
    · rw [if_pos h]
      exact entriesLE_updState gen M p
    · rw [if_neg h]
      exact EntriesLE.rfl' M
  | deleteOp gen M p =>
    rw [delete_fst]
    by_cases h : (gen Verb.delete p none).isError = false
    · rw [if_pos h]
      exact entriesLE_updState gen M p
    · rw [if_neg h]
      exact EntriesLE.rfl' M

theorem entriesLE_reachable {V : Type} {M N : Manager V} (h : Reachable M N) :
    EntriesLE M N := by
  induction h with
  | refl => exact EntriesLE.rfl' M
  | tail h1 h2 ih => exact EntriesLE.trans' ih (entriesLE_step h2)

theorem subscribe_entries {V : Type} (M : Manager V) (c : ClientId) (p : Path) :
    (mapGet (M.subscribe c p).subscriptions c).isSome = true ∧
    (mapGet (M.subscribe c p).dependents p).isSome = true := by
  constructor
  · rw [mapGet_subscriptions_subscribe, if_pos rfl]
    rfl
  · rw [mapGet_dependents_subscribe, if_pos rfl]
    rfl

/-! ## Effects of `update` and the mutating verbs -/

theorem updEff_calls {V : Type} (gen : Verb → Path → Option V → Reply V) (M : Manager V)
    (p : Path) : (Manager.updEff gen M p).calls = [(Verb.get, p, none)] := by
  unfold Manager.updEff
  cases he : (gen Verb.get p none).isError with
  | false =>
    rw [update_success gen M p he]
  | true =>
    by_cases h4 : (gen Verb.get p none).status = 404
    · rw [update_404_raw gen M p he h4]
      cases hc : Manager.cascade p
          (⟨mapDelete M.cache p, M.dependents, M.subscriptions⟩ : Manager V) []
          (M.dependentsOf p) with
      | error e =>
        obtain ⟨st, ns⟩ := e
        rfl
      | ok o =>
        obtain ⟨st, ns⟩ := o
        rfl
    · rw [update_other_error gen M p he h4]

theorem post_success_eq {V : Type} (gen : Verb → Path → Option V → Reply V) (M : Manager V)
    (p : Path) (d : Option V) (h : (gen Verb.post p d).isError = false) :
    Manager.post gen M p d = (Manager.updState gen M p,
      ⟨[(Verb.post, p, d), (Verb.get, p, none)], (Manager.updEff gen M p).notes⟩,
      gen Verb.post p d) := by
  unfold Manager.post
  dsimp only
  rw [h]
  simp only [if_pos rfl, updEff_calls]
  rfl

theorem post_error_eq {V : Type} (gen : Verb → Path → Option V → Reply V) (M : Manager V)
    (p : Path) (d : Option V) (h : (gen Verb.post p d).isError = true) :
    Manager.post gen M p d = (M, ⟨[(Verb.post, p, d)], []⟩, gen Verb.post p d) := by
  unfold Manager.post
  dsimp only
  rw [h]
  simp only [Bool.true_eq_false, if_false]

theorem put_success_eq {V : Type} (gen : Verb → Path → Option V → Reply V) (M : Manager V)
    (p : Path) (d : Option V) (h : (gen Verb.put p d).isError = false) :
    Manager.put gen M p d = (Manager.updState gen M p,
      ⟨[(Verb.put, p, d), (Verb.get, p, none)], (Manager.updEff gen M p).notes⟩,
      gen Verb.put p d) := by
  unfold Manager.put
  dsimp only
  rw [h]
  simp only [if_pos rfl, updEff_calls]
  rfl

theorem put_error_eq {V : Type} (gen : Verb → Path → Option V → Reply V) (M : Manager V)
    (p : Path) (d : Option V) (h : (gen Verb.put p d).isError = true) :
    Manager.put gen M p d = (M, ⟨[(Verb.put, p, d)], []⟩, gen Verb.put p d) := by
  unfold Manager.put
  dsimp only
  rw [h]
  simp only [Bool.true_eq_false, if_false]

theorem patch_success_eq {V : Type} (gen : Verb → Path → Option V → Reply V) (M : Manager V)
    (p : Path) (d : Option V) (h : (gen Verb.patch p d).isError = false) :
    Manager.patch gen M p d = (Manager.updState gen M p,
      ⟨[(Verb.patch, p, d), (Verb.get, p, none)], (Manager.updEff gen M p).notes⟩,
      gen Verb.patch p d) := by
  unfold Manager.patch
  dsimp only
  rw [h]
  simp only [if_pos rfl, updEff_calls]
  rfl

theorem patch_error_eq {V : Type} (gen : Verb → Path → Option V → Reply V) (M : Manager V)
    (p : Path) (d : Option V) (h : (gen Verb.patch p d).isError = true) :
    Manager.patch gen M p d = (M, ⟨[(Verb.patch, p, d)], []⟩, gen Verb.patch p d) := by
  unfold Manager.patch
  dsimp only
  rw [h]
  simp only [Bool.true_eq_false, if_false]

theorem delete_success_eq {V : Type} (gen : Verb → Path → Option V → Reply V)
    (M : Manager V) (p : Path) (h : (gen Verb.delete p none).isError = false) :
    Manager.delete gen M p = (Manager.updState gen M p,
      ⟨[(Verb.delete, p, none), (Verb.get, p, none)], (Manager.updEff gen M p).notes⟩,
      gen Verb.delete p none) := by
  unfold Manager.delete
  dsimp only
  rw [h]
  simp only [if_pos rfl, updEff_calls]
  rfl

theorem delete_error_eq {V : Type} (gen : Verb → Path → Option V → Reply V)
    (M : Manager V) (p : Path) (h : (gen Verb.delete p none).isError = true) :
    Manager.delete gen M p = (M, ⟨[(Verb.delete, p, none)], []⟩, gen Verb.delete p none) := by
  unfold Manager.delete
  dsimp only
  rw [h]
  simp only [Bool.true_eq_false, if_false]

/-- Counting notifications in a fan-out round: a duplicate-free dependent
snapshot yields exactly one notification per dependent (and none for anyone
else). -/
theorem count_notif_map {V : Type} [DecidableEq V] (p : Path) (v : Option V)
    (c : ClientId) :
    ∀ ds : List ClientId, ds.Nodup →
      ((ds.map (fun x => (x, p, v))).countP (fun n => n = (c, p, v)))
        = if c ∈ ds then 1 else 0 := by
  intro ds
  induction ds with
  | nil =>
    intro _
    simp
  | cons a ds ih =>
    intro hnd
    rw [List.map_cons, List.countP_cons]
    by_cases hac : a = c
    · subst hac
      have hnot : a ∉ ds := (List.nodup_cons.1 hnd).1
      simp [ih (List.nodup_cons.1 hnd).2, hnot]
    · have hne : ¬((a, p, v) = (c, p, v)) := by
        simp [hac]
      have hca : ¬(c = a) := fun h => hac h.symm
      simp [ih (List.nodup_cons.1 hnd).2, hne, hca]

/-! ## The claims -/

/-- C2: the claim states that `unsubscribe(c, p)` and `unsubscribe(c)` are
total and never raise, with unsubscribing a client that has no subscriptions
being a no-op.  The code instead evaluates `this.subscriptions.get(client)`
to `undefined` for a client with no `subscriptions` entry and then calls
`.delete` (resp. `.forEach`) on it, throwing a `TypeError`: on a freshly
constructed manager both forms crash (the `.error` outcome) instead of
returning as a no-op. -/
theorem C2_unsubscribe_crashes_on_unknown_client :
    Manager.unsubscribe (Manager.initial Nat) 0 (some "x")
        = .error (Manager.initial Nat) ∧
    Manager.unsubscribe (Manager.initial Nat) 0 none = .error (Manager.initial Nat) := by
  constructor
  · rfl
  · rfl

/-- C8: calling `subscribe(c, p)` twice in a row leaves the whole state —
dependents index, subscriptions index (and cache) — exactly as after calling
it once; `subscribe` is a total function of the state, so it never errors. -/
theorem C8_subscribe_idempotent {V : Type} (M : Manager V) (c : ClientId) (p : Path) :
    (M.subscribe c p).subscribe c p = M.subscribe c p :=
  subscribe_subscribe M c p

/-- C6: when `update(p)` receives an error reply whose status is not 404, the
state is returned byte-for-byte unchanged (same cache, same graph), no client
is notified, and the error reply is returned as-is. -/
theorem C6_non404_error_inert {V : Type} (gen : Verb → Path → Option V → Reply V)
    (M : Manager V) (p : Path) (h1 : (gen Verb.get p none).isError = true)
    (h2 : (gen Verb.get p none).status ≠ 404) :
    Manager.update gen M p = .ok (M, ⟨[(Verb.get, p, none)], []⟩, gen Verb.get p none) :=
  update_other_error gen M p h1 h2

/-- Witness for C6: a resolver answering 500 leaves a concrete one-subscriber
state untouched and is passed through. -/
theorem C6_non404_error_inert_witness :
    ((fun (_ : Verb) (_ : Path) (_ : Option Nat) => (⟨500, none, true⟩ : Reply Nat))
        Verb.get "a" none).isError = true ∧
    Manager.update (fun _ _ _ => (⟨500, none, true⟩ : Reply Nat))
        ((Manager.initial Nat).subscribe 1 "a") "a"
      = .ok ((Manager.initial Nat).subscribe 1 "a",
          ⟨[(Verb.get, "a", none)], []⟩, ⟨500, none, true⟩) :=
  ⟨rfl, C6_non404_error_inert (fun _ _ _ => (⟨500, none, true⟩ : Reply Nat))
    ((Manager.initial Nat).subscribe 1 "a") "a" rfl (by decide)⟩

/-- C9: a mutation verb whose own reply is an error — any error status,
404 included — returns that reply with the state untouched (cache entry and
subscriptions for `p` unchanged) and performs no refresh and no eviction
cascade; only the `"get"` fetch inside `update` can evict. -/
theorem C9_mutation_error_no_eviction {V : Type} (gen : Verb → Path → Option V → Reply V)
    (M : Manager V) (p : Path) (d : Option V) :
    ((gen Verb.post p d).isError = true →
      Manager.post gen M p d = (M, ⟨[(Verb.post, p, d)], []⟩, gen Verb.post p d)) ∧
    ((gen Verb.put p d).isError = true →
      Manager.put gen M p d = (M, ⟨[(Verb.put, p, d)], []⟩, gen Verb.put p d)) ∧
    ((gen Verb.patch p d).isError = true →
      Manager.patch gen M p d = (M, ⟨[(Verb.patch, p, d)], []⟩, gen Verb.patch p d)) ∧
    ((gen Verb.delete p none).isError = true →
      Manager.delete gen M p = (M, ⟨[(Verb.delete, p, none)], []⟩, gen Verb.delete p none)) :=
  ⟨post_error_eq gen M p d, put_error_eq gen M p d, patch_error_eq gen M p d,
    delete_error_eq gen M p⟩

/-- Witness for C9: a 404-answering resolver on a mutation leaves a concrete
one-subscriber state untouched, with no eviction of the subscription. -/
theorem C9_mutation_error_no_eviction_witness :
    ((fun (_ : Verb) (_ : Path) (_ : Option Nat) => (⟨404, none, true⟩ : Reply Nat))
        Verb.post "a" (some 5)).isError = true ∧
    Manager.post (fun _ _ _ => (⟨404, none, true⟩ : Reply Nat))
        ((Manager.initial Nat).subscribe 1 "a") "a" (some 5)
      = ((Manager.initial Nat).subscribe 1 "a",
          ⟨[(Verb.post, "a", some 5)], []⟩, ⟨404, none, true⟩) :=
  ⟨rfl, (C9_mutation_error_no_eviction (fun _ _ _ => (⟨404, none, true⟩ : Reply Nat))
    ((Manager.initial Nat).subscribe 1 "a") "a" (some 5)).1 rfl⟩

/-- C5: `update(p)` calls the resolver exactly once, with verb `get` on `p`;
on a non-error reply it writes the payload into the cache at `p`, then
invokes every current dependent exactly once with `(p, cachedValue)` where
`cachedValue` is the value just written, and returns that reply.  The
duplicate-freeness hypothesis holds for every JS `Set` and every reachable
state. -/
theorem C5_update_success {V : Type} [DecidableEq V]
    (gen : Verb → Path → Option V → Reply V) (M : Manager V) (p : Path)
    (h : (gen Verb.get p none).isError = false)
    (hnd : (M.dependentsOf p).Nodup) :
    Manager.update gen M p = .ok
      (⟨mapSet M.cache p (gen Verb.get p none).payload, M.dependents, M.subscriptions⟩,
       ⟨[(Verb.get, p, none)],
        (M.dependentsOf p).map (fun c => (c, p, (gen Verb.get p none).payload))⟩,
       gen Verb.get p none) ∧
    mapGet (mapSet M.cache p (gen Verb.get p none).payload) p
      = some (gen Verb.get p none).payload ∧
    (∀ c : ClientId,
      (((M.dependentsOf p).map (fun x => (x, p, (gen Verb.get p none).payload))).countP
        (fun n => n = (c, p, (gen Verb.get p none).payload)))
        = if c ∈ M.dependentsOf p then 1 else 0) :=
  ⟨update_success gen M p h, mapGet_mapSet_self _ _ _,
    fun c => count_notif_map p (gen Verb.get p none).payload c (M.dependentsOf p) hnd⟩

/-- Witness for C5: a 200 reply with payload 7 on a concrete one-subscriber
state caches the payload and notifies the subscriber once. -/
theorem C5_update_success_witness :
    ((fun (_ : Verb) (_ : Path) (_ : Option Nat) => (⟨200, some 7, false⟩ : Reply Nat))
        Verb.get "a" none).isError = false ∧
    ((((Manager.initial Nat).subscribe 1 "a").dependentsOf "a")).Nodup ∧
    Manager.update (fun _ _ _ => (⟨200, some 7, false⟩ : Reply Nat))
        ((Manager.initial Nat).subscribe 1 "a") "a"
      = .ok
        (⟨mapSet ((Manager.initial Nat).subscribe 1 "a").cache "a" (some 7),
          ((Manager.initial Nat).subscribe 1 "a").dependents,
          ((Manager.initial Nat).subscribe 1 "a").subscriptions⟩,
         ⟨[(Verb.get, "a", none)],
          (((Manager.initial Nat).subscribe 1 "a").dependentsOf "a").map
            (fun c => (c, "a", some 7))⟩,
         ⟨200, some 7, false⟩) :=
  ⟨rfl, by decide,
    (C5_update_success (fun _ _ _ => (⟨200, some 7, false⟩ : Reply Nat))
      ((Manager.initial Nat).subscribe 1 "a") "a" rfl (by decide)).1⟩

/-- C4: if the cache has an entry for `p`, `get(p)` returns a success reply
wrapping the cached value and performs no resolver call; otherwise it returns
exactly the result of `update(p)`.  After a successful `update(p)`, `get(p)`
— with any resolver behaviour `gen2` — serves the value just written with no
resolver call. -/
theorem C4_cache_then_serve {V : Type} (gen gen2 : Verb → Path → Option V → Reply V)
    (M : Manager V) (p : Path) :
    (mapHas M.cache p = true →
      Manager.get gen M p = .ok (M, ⟨[], []⟩, Reply.OK ((mapGet M.cache p).getD none))) ∧
    (mapHas M.cache p = false → Manager.get gen M p = Manager.update gen M p) ∧
    ((gen Verb.get p none).isError = false →
      Manager.get gen2 (Manager.updState gen M p) p =
        .ok (Manager.updState gen M p, ⟨[], []⟩,
          Reply.OK (gen Verb.get p none).payload)) := by
  refine ⟨fun h => get_cached gen M p h, fun h => get_uncached gen M p h, fun h => ?_⟩
  rw [updState_success gen M p h]
  have hhas : mapHas (⟨mapSet M.cache p (gen Verb.get p none).payload, M.dependents,
      M.subscriptions⟩ : Manager V).cache p = true := by
    show (mapGet (mapSet M.cache p (gen Verb.get p none).payload) p).isSome = true
    rw [mapGet_mapSet_self]
    rfl
  rw [get_cached gen2 _ p hhas]
  simp only [mapGet_mapSet_self, Option.getD_some]

/-- Witness for C4: after a successful `update` writing payload 7, a `get`
against a resolver that would answer 9 still serves 7 from the cache with no
resolver call. -/
theorem C4_cache_then_serve_witness :
    ((fun (_ : Verb) (_ : Path) (_ : Option Nat) => (⟨200, some 7, false⟩ : Reply Nat))
        Verb.get "a" none).isError = false ∧
    Manager.get (fun _ _ _ => (⟨200, some 9, false⟩ : Reply Nat))
        (Manager.updState (fun _ _ _ => (⟨200, some 7, false⟩ : Reply Nat))
          (Manager.initial Nat) "a") "a"
      = .ok (Manager.updState (fun _ _ _ => (⟨200, some 7, false⟩ : Reply Nat))
          (Manager.initial Nat) "a", ⟨[], []⟩, Reply.OK (some 7)) :=
  ⟨rfl, (C4_cache_then_serve (fun _ _ _ => (⟨200, some 7, false⟩ : Reply Nat))
    (fun _ _ _ => (⟨200, some 9, false⟩ : Reply Nat))
    (Manager.initial Nat) "a").2.2 rfl⟩

/-- C7: each mutating verb first calls the resolver with its own verb; on a
non-error reply exactly one refresh happens — one resolver `get` call on `p`
(the call list is exactly the mutation call followed by the `get`) and one
fan-out round (the refresh's notifications) — even with zero subscribers,
and the original mutation reply, not the refresh's, is returned; on an error
reply no refresh occurs. -/
theorem C7_mutation_triggers_refresh {V : Type}
    (gen : Verb → Path → Option V → Reply V) (M : Manager V) (p : Path) (d : Option V) :
    ((gen Verb.post p d).isError = false →
      Manager.post gen M p d = (Manager.updState gen M p,
        ⟨[(Verb.post, p, d), (Verb.get, p, none)], (Manager.updEff gen M p).notes⟩,
        gen Verb.post p d)) ∧
    ((gen Verb.post p d).isError = true →
      Manager.post gen M p d = (M, ⟨[(Verb.post, p, d)], []⟩, gen Verb.post p d)) ∧
    ((gen Verb.put p d).isError = false →
      Manager.put gen M p d = (Manager.updState gen M p,
        ⟨[(Verb.put, p, d), (Verb.get, p, none)], (Manager.updEff gen M p).notes⟩,
        gen Verb.put p d)) ∧
    ((gen Verb.put p d).isError = true →
      Manager.put gen M p d = (M, ⟨[(Verb.put, p, d)], []⟩, gen Verb.put p d)) ∧
    ((gen Verb.patch p d).isError = false →
      Manager.patch gen M p d = (Manager.updState gen M p,
        ⟨[(Verb.patch, p, d), (Verb.get, p, none)], (Manager.updEff gen M p).notes⟩,
        gen Verb.patch p d)) ∧
    ((gen Verb.patch p d).isError = true →
      Manager.patch gen M p d = (M, ⟨[(Verb.patch, p, d)], []⟩, gen Verb.patch p d)) ∧
    ((gen Verb.delete p none).isError = false →
      Manager.delete gen M p = (Manager.updState gen M p,
        ⟨[(Verb.delete, p, none), (Verb.get, p, none)], (Manager.updEff gen M p).notes⟩,
        gen Verb.delete p none)) ∧
    ((gen Verb.delete p none).isError = true →
      Manager.delete gen M p = (M, ⟨[(Verb.delete, p, none)], []⟩,
        gen Verb.delete p none)) :=
  ⟨post_success_eq gen M p d, post_error_eq gen M p d,
   put_success_eq gen M p d, put_error_eq gen M p d,
   patch_success_eq gen M p d, patch_error_eq gen M p d,
   delete_success_eq gen M p, delete_error_eq gen M p⟩

/-- Witness for C7: a successful `post` on the empty state (zero subscribers)
issues exactly the mutation call then one `get` refresh, and returns the
mutation reply. -/
theorem C7_mutation_triggers_refresh_witness :
    ((fun (_ : Verb) (_ : Path) (_ : Option Nat) => (⟨200, some 7, false⟩ : Reply Nat))
        Verb.post "a" (some 5)).isError = false ∧
    Manager.post (fun _ _ _ => (⟨200, some 7, false⟩ : Reply Nat))
        (Manager.initial Nat) "a" (some 5)
      = (Manager.updState (fun _ _ _ => (⟨200, some 7, false⟩ : Reply Nat))
          (Manager.initial Nat) "a",
         ⟨[(Verb.post, "a", some 5), (Verb.get, "a", none)],
          (Manager.updEff (fun _ _ _ => (⟨200, some 7, false⟩ : Reply Nat))
            (Manager.initial Nat) "a").notes⟩,
         ⟨200, some 7, false⟩) :=
  ⟨rfl, (C7_mutation_triggers_refresh (fun _ _ _ => (⟨200, some 7, false⟩ : Reply Nat))
    (Manager.initial Nat) "a" (some 5)).1 rfl⟩

/-- C3: in every state reachable from the freshly constructed manager by any
sequence of public operations (crash outcomes included), the subscription
graph is symmetric: a client is in the dependent set of a path exactly when
the path is in that client's subscription set. -/
theorem C3_symmetry_invariant {V : Type} (M : Manager V)
    (h : Reachable (Manager.initial V) M) (c : ClientId) (p : Path) :
    c ∈ M.dependentsOf p ↔ p ∈ M.subscriptionsOf c :=
  (WF_reachable_initial h).1 c p

/-- Witness for C3 at the state reached by one `subscribe`. -/
theorem C3_symmetry_invariant_witness :
    1 ∈ ((Manager.initial Nat).subscribe 1 "a").dependentsOf "a" ↔
      "a" ∈ ((Manager.initial Nat).subscribe 1 "a").subscriptionsOf 1 :=
  C3_symmetry_invariant ((Manager.initial Nat).subscribe 1 "a")
    (Relation.ReflTransGen.single (Step.sub (Manager.initial Nat) 1 "a")) 1 "a"

/-- C10: once `subscribe(c, p)` has run, the `subscriptions` map keeps an
entry for `c` and the `dependents` map keeps an entry for `p` in every
subsequently reachable state — `unsubscribe` (either form) and the 404
eviction cascade empty the sets but never delete the map entries, so a fully
unsubscribed client keeps an (empty) entry rather than none. -/
theorem C10_graph_entries_persist {V : Type} (M : Manager V) (c : ClientId) (p : Path)
    {N : Manager V} (h : Reachable (M.subscribe c p) N) :
    (mapGet N.subscriptions c).isSome = true ∧ (mapGet N.dependents p).isSome = true := by
  have hLE := entriesLE_reachable h
  obtain ⟨h1, h2⟩ := subscribe_entries M c p
  exact ⟨hLE.1 c h1, hLE.2 p h2⟩

/-- Witness for C10: after subscribing and then fully unsubscribing client 1,
both map entries still exist. -/
theorem C10_graph_entries_persist_witness :
    (mapGet (Manager.unsubState ((Manager.initial Nat).subscribe 1 "a") 1
      (some "a")).subscriptions 1).isSome = true ∧
    (mapGet (Manager.unsubState ((Manager.initial Nat).subscribe 1 "a") 1
      (some "a")).dependents "a").isSome = true :=
  C10_graph_entries_persist (Manager.initial Nat) 1 "a"
    (Relation.ReflTransGen.single
      (Step.unsub ((Manager.initial Nat).subscribe 1 "a") 1 (some "a")))

/-- C1: on a well-formed state, when `update(p)` receives an error reply with
status 404, it succeeds and afterwards the cache has no entry for `p`, the
dependent set of `p` is empty and `p` is gone from every former dependent's
subscription set, every client that was a dependent of `p` at the start of
the fan-out is notified exactly once with `(p, absent)`, the 404 reply itself
is returned, and — for every position in the dependent snapshot — the
subscription edge of that client is already removed in the state in which its
callback runs (the cascade unsubscribes, then notifies). -/
theorem C1_eviction_cascade_404 {V : Type} [DecidableEq V]
    (gen : Verb → Path → Option V → Reply V) (M : Manager V) (p : Path)
    (hWF : WF M) (h1 : (gen Verb.get p none).isError = true)
    (h2 : (gen Verb.get p none).status = 404) :
    ∃ N : Manager V,
      Manager.update gen M p = .ok
        (N, ⟨[(Verb.get, p, none)],
          (M.dependentsOf p).map (fun c => (c, p, none))⟩, gen Verb.get p none) ∧
      mapGet N.cache p = none ∧
      N.dependentsOf p = [] ∧
      (∀ c ∈ M.dependentsOf p, p ∉ N.subscriptionsOf c) ∧
      (∀ c : ClientId,
        (((M.dependentsOf p).map (fun x => (x, p, (none : Option V)))).countP
          (fun n => n = (c, p, none))) = if c ∈ M.dependentsOf p then 1 else 0) ∧
      (∀ pre c suf, M.dependentsOf p = pre ++ c :: suf →
        ∃ st ns1 st2,
          Manager.cascade p
              (⟨mapDelete M.cache p, M.dependents, M.subscriptions⟩ : Manager V) [] pre
            = .ok (st, ns1) ∧
          st.unsubscribe c (some p) = .ok st2 ∧
          c ∉ st2.dependentsOf p ∧ p ∉ st2.subscriptionsOf c ∧
          Manager.cascade p
              (⟨mapDelete M.cache p, M.dependents, M.subscriptions⟩ : Manager V) []
              (pre ++ [c])
            = .ok (st2, ns1 ++ [(c, p, none)])) := by
  obtain ⟨N, hupd, hWFN, hcache, hdeps, hsubs, hmono, hd, hs⟩ :=
    update_404 gen M p h1 h2 hWF
  refine ⟨N, hupd, ?_, ?_, hsubs, ?_, ?_⟩
  · rw [hcache, mapGet_mapDelete, if_pos rfl]
  · exact List.eq_nil_iff_forall_not_mem.2 hdeps
  · intro c
    exact count_notif_map p none c (M.dependentsOf p) (hWF.2.1 p)
  · intro pre c suf hsplit
    have hnd : (M.dependentsOf p).Nodup := hWF.2.1 p
    have hndpre : pre.Nodup := by
      rw [hsplit] at hnd
      exact (List.nodup_append.1 hnd).1
    have hcpre : c ∉ pre := by
      rw [hsplit] at hnd
      have hdisj := (List.nodup_append.1 hnd).2.2
      intro hc
      exact hdisj hc (List.mem_cons_self c suf)
    have hWF1 : WF (⟨mapDelete M.cache p, M.dependents, M.subscriptions⟩ : Manager V) :=
      hWF
    have hprepre : ∀ x ∈ pre,
        x ∈ (⟨mapDelete M.cache p, M.dependents, M.subscriptions⟩
          : Manager V).dependentsOf p := by
      intro x hx
      show x ∈ M.dependentsOf p
      rw [hsplit]
      exact List.mem_append.2 (Or.inl hx)
    obtain ⟨st, hcaspre, hWFst, hcachest, hdeps_st, hsubs_st, hmono_st, hd_st, hs_st⟩ :=
      cascade_spec p pre (⟨mapDelete M.cache p, M.dependents, M.subscriptions⟩ : Manager V)
        [] hWF1 hndpre hprepre
    have hcin : c ∈ st.dependentsOf p := by
      refine (hdeps_st c).2 ⟨?_, hcpre⟩
      show c ∈ M.dependentsOf p
      rw [hsplit]
      exact List.mem_append.2 (Or.inr (List.mem_cons_self c suf))
    obtain ⟨st2, R, hok2, hpR2, hcache2, hdeps2, hsubs2, hsubc2, hsome2⟩ :=
      unsubscribe_cascade_spec hWFst.1 hcin
    refine ⟨st, [] ++ pre.map (fun x => (x, p, none)), st2, hcaspre, hok2, ?_, ?_, ?_⟩
    · unfold Manager.dependentsOf
      rw [hdeps2 p, if_pos hpR2]
      cases hg : mapGet st.dependents p with
      | none => simp
      | some es => simp [mem_setDelete]
    · rw [hsubc2]
      intro hmem
      have hmem2 := (List.mem_filter.1 hmem).2
      simp [hpR2] at hmem2
    · rw [cascade_append p pre [c]
        (⟨mapDelete M.cache p, M.dependents, M.subscriptions⟩ : Manager V) [], hcaspre]
      show Manager.cascade p st ([] ++ pre.map (fun x => (x, p, none))) [c] = _
      rw [cascade_cons, hok2]
      rfl

/-- Witness for C1: clients 1 and 2 subscribed to "a", resolver answers 404. -/
theorem C1_eviction_cascade_404_witness :
    ((fun (_ : Verb) (_ : Path) (_ : Option Nat) => (⟨404, none, true⟩ : Reply Nat))
        Verb.get "a" none).isError = true ∧
    ∃ N : Manager Nat,
      Manager.update (fun _ _ _ => (⟨404, none, true⟩ : Reply Nat))
          (((Manager.initial Nat).subscribe 1 "a").subscribe 2 "a") "a" = .ok
        (N, ⟨[(Verb.get, "a", none)],
          ((((Manager.initial Nat).subscribe 1 "a").subscribe 2 "a").dependentsOf "a").map
            (fun c => (c, "a", none))⟩, ⟨404, none, true⟩) ∧
      mapGet N.cache "a" = none ∧
      N.dependentsOf "a" = [] ∧
      (∀ c ∈ (((Manager.initial Nat).subscribe 1 "a").subscribe 2 "a").dependentsOf "a",
        "a" ∉ N.subscriptionsOf c) ∧
      (∀ c : ClientId,
        (((((Manager.initial Nat).subscribe 1 "a").subscribe 2 "a").dependentsOf "a").map
          (fun x => (x, "a", (none : Option Nat)))).countP
            (fun n => n = (c, "a", none))
          = if c ∈ (((Manager.initial Nat).subscribe 1 "a").subscribe 2 "a").dependentsOf "a"
            then 1 else 0) ∧
      (∀ pre c suf,
        (((Manager.initial Nat).subscribe 1 "a").subscribe 2 "a").dependentsOf "a"
          = pre ++ c :: suf →
        ∃ st ns1 st2,
          Manager.cascade "a"
              (⟨mapDelete (((Manager.initial Nat).subscribe 1 "a").subscribe 2 "a").cache "a",
                (((Manager.initial Nat).subscribe 1 "a").subscribe 2 "a").dependents,
                (((Manager.initial Nat).subscribe 1 "a").subscribe 2 "a").subscriptions⟩
                : Manager Nat) [] pre
            = .ok (st, ns1) ∧
          st.unsubscribe c (some "a") = .ok st2 ∧
          c ∉ st2.dependentsOf "a" ∧ "a" ∉ st2.subscriptionsOf c ∧
          Manager.cascade "a"
              (⟨mapDelete (((Manager.initial Nat).subscribe 1 "a").subscribe 2 "a").cache "a",
                (((Manager.initial Nat).subscribe 1 "a").subscribe 2 "a").dependents,
                (((Manager.initial Nat).subscribe 1 "a").subscribe 2 "a").subscriptions⟩
                : Manager Nat) [] (pre ++ [c])
            = .ok (st2, ns1 ++ [(c, "a", none)])) :=
  ⟨rfl, C1_eviction_cascade_404 (fun _ _ _ => (⟨404, none, true⟩ : Reply Nat))
    (((Manager.initial Nat).subscribe 1 "a").subscribe 2 "a") "a"
    (WF_subscribe (WF_subscribe (WF_initial Nat) 1 "a") 2 "a") rfl rfl⟩

end Synapse
